import Mathlib

/-!
Verification of the Device Data Standardization Engine of the AI-READI
fairhub-pipeline repository.

The repository ships the canonical environmental-sensor header block (embedded
below as `envHeaderBlock`, transcribed verbatim) together with demo notebooks
that drive `es.EnvironmentalSensor.convert` and `ecg.ECG.convert`.  The engine
itself (parser adapters, identity resolver, merge/ordering engine, schema
validator, header generator, output writer) is not part of the shipped tree;
those components are modelled here from the specification, as marked on each
definition.

String functions of the standard library do not reduce in the kernel, so all
header parsing is done on `List Char` with structurally recursive helpers.
-/

/-! ## Character-list parsing helpers -/

/-- Characters of a string; all header parsing works on character lists. -/
def chars (s : String) : List Char := s.data

/-- Tests whether the second list starts with the first (the pattern). -/
def startsWithChars : List Char → List Char → Bool
  | [], _ => true
  | _ :: _, [] => false
  | p :: ps, c :: cs => p == c && startsWithChars ps cs

/-- Suffix strictly after the first occurrence of `pat`, if `pat` occurs. -/
def afterFirst (pat : List Char) : List Char → Option (List Char)
  | [] => none
  | c :: cs =>
    if startsWithChars pat (c :: cs) then some (List.drop pat.length (c :: cs))
    else afterFirst pat cs

/-- Prefix strictly before the first occurrence of `pat`, if `pat` occurs. -/
def beforeFirst (pat : List Char) : List Char → Option (List Char)
  | [] => none
  | c :: cs =>
    if startsWithChars pat (c :: cs) then some []
    else (beforeFirst pat cs).map (c :: ·)

/-- Splits a character list on a separator character. -/
def splitChar (sep : Char) : List Char → List (List Char)
  | [] => [[]]
  | c :: cs =>
    if c = sep then [] :: splitChar sep cs
    else
      match splitChar sep cs with
      | [] => [[c]]
      | h :: t => (c :: h) :: t

/-- Numeric value of a decimal digit character. -/
def digitVal (c : Char) : Option Nat :=
  if '0' ≤ c ∧ c ≤ '9' then some (c.toNat - '0'.toNat) else none

/-- Accumulator pass of `natFrom`. -/
def natFromGo (acc : Nat) : List Char → Option Nat
  | [] => some acc
  | c :: cs =>
    match digitVal c with
    | some d => natFromGo (acc * 10 + d) cs
    | none => none

/-- Parses an unsigned decimal numeral; `none` on the empty list or any
non-digit character. -/
def natFrom : List Char → Option Nat
  | [] => none
  | c :: cs => natFromGo 0 (c :: cs)

/-- Character admissible inside a (possibly signed) decimal numeral. -/
def isNumChar (c : Char) : Bool := (digitVal c).isSome || c == '.' || c == '-'

/-- Tests whether a character list is a decimal numeral (digits with an
optional sign and decimal point, and at least one digit). -/
def isDecimalNumeral (cs : List Char) : Bool :=
  cs.any (fun c => (digitVal c).isSome) && cs.all isNumChar

/-! ## The canonical environmental-sensor header block

Transcribed verbatim from the shipped header block (the 45 lines following the
environmental-sensor demo notebook in the repository). -/

/-- Canonical environmental-sensor header block shipped in the repository,
one entry per line, in file order. -/
def envHeaderBlock : List String := [
"# header_lines: 45",
"# header_version: 2.0",
"# dataset_information: see docs.aireadi.org and fairhub.io",
"# dataset_usage_and_license: see docs.aireadi.org",
"# data_processing: automated concatenation and filtering of raw files; see docs.aireadi.org",
"# sensor_component_documentation: see docs.aireadi.org",
"# reserved_for_future_use_1: no_value_at_present",
"# reserved_for_future_use_2: no_value_at_present",
"# reserved_for_future_use_3: no_value_at_present",
"# reserved_for_future_use_4: no_value_at_present",
"# environmental_sensor_manufacturer: LeeLab",
"# environmental_sensor_device_model: Anura",
"# environmental_sensor_hardware_version: 1.0.0",
"# environmental_sensor_firmware_version: placeholder",
"# time_stamp_source: real time clock RTC programmed to match UTC with error < 30 seconds",
"# meta_sensor_sampling_interval: 5 seconds",
"# meta_sensor_id: placeholder",
"# meta_participant_id: placeholder",
"# meta_sensor_location: placeholder",
"# meta_number_of_observations: placeholder",
"# meta_extent_of_observation_in_days: placeholder",
"# number_of_data_columns: 22",
"# data_column_list: ts,lch0,lch1,lch2,lch3,lch6,lch7,lch8,lch9,lch10,lch11,pm1,pm2.5,pm4,pm10,hum,temp,voc,nox,screen,ff,inttemp",
"# ts: timestamp UTC YYYY-MM-DD hh:mm:ss, study range 2023 through 2027, units seconds",
"# lch0: float [0.000 to 1.000] F1 center wavelength 415 nm, units relative intensity",
"# lch1: float [0.000 to 1.000] F2 center wavelength 445 nm, units relative intensity",
"# lch2: float [0.000 to 1.000] F3 center wavelength 480 nm, units relative intensity",
"# lch3: float [0.000 to 1.000] F4 center wavelength 515 nm, units relative intensity",
"# lch6: float [0.000 to 1.000] F5 center wavelength 555 nm, units relative intensity",
"# lch7: float [0.000 to 1.000] F6 center wavelength 590 nm, units relative intensity",
"# lch8: float [0.000 to 1.000] F7 center wavelength 630 nm, units relative intensity",
"# lch9: float [0.000 to 1.000] F8 center wavelength 680 nm, units relative intensity",
"# lch10: float [0.000 to 1.000] clear no filter, units relative intensity",
"# lch11: float [0.000 to 1.000] NIR center wavelength 910 nm, units relative intensity",
"# pm1: uint16 [0 to 65536] concentration of particles sized 0.3 to 1.0 um, count per cm^3",
"# pm2.5: uint16 [0 to 65536] concentration of particles sized 0.3 to 2.5 um, count per cm^3",
"# pm4: uint16 [0 to 65536]  concentration of particles sized 0.3 to 4.0 um, estimated count per cm^3",
"# pm10: uint16 [0 to 65536] concentration of particles sized 0.3 to 10.0 um, estimated count per cm^3",
"# hum: float [0.00 to 1.00] relative humidity, 0 to 100%",
"# temp: float [-10.00 to 50.00] ambient room temperature measured by SEN55, degrees C",
"# voc: integer [1 to 500] volatile organic compound, VOC Index points",
"# nox: integer [1 to 500] NO and NO2, NOx Index points",
"# screen: boolean [0 to 1] screen state, 0-screen is off; 1-screen is on",
"# ff: integer [0 to 2000] flicker detection, Hz",
"# inttemp: float [0.00 to FF.FF] internal case temperature measured on the RTC board, degrees C"]

/-- Pattern that begins the header line declaring key `key`. -/
def keyPattern (key : String) : List Char := chars "# " ++ chars key ++ chars ":"

/-- First header line declaring `key`, as characters. -/
def findHeaderLine (key : String) : Option (List Char) :=
  (envHeaderBlock.find? (fun l => startsWithChars (keyPattern key) l.data)).map (·.data)

/-- Declared value of a `key: value` header line. -/
def headerValue (key : String) : Option (List Char) :=
  (findHeaderLine key).bind (afterFirst (chars ": "))

/-- Column names declared by the `data_column_list` header line, in order. -/
def dataColumnNames : List (List Char) :=
  splitChar ',' ((headerValue "data_column_list").getD [])

/-- Per-column descriptor lines of the header block: the lines whose key is one
of the declared data column names. -/
def descriptorLines : List (List Char) :=
  (envHeaderBlock.filter
    (fun l => dataColumnNames.any
      (fun n => startsWithChars (chars "# " ++ n ++ chars ":") l.data))).map (·.data)

/-- Count of header lines that the block itself declares. -/
def declaredHeaderLineCount : Option Nat := (headerValue "header_lines").bind natFrom

/-- Count of data columns that the block itself declares. -/
def declaredColumnCount : Option Nat :=
  (headerValue "number_of_data_columns").bind natFrom

/-- Column name declared by a descriptor line. -/
def fieldName (l : List Char) : List Char :=
  ((afterFirst (chars "# ") l).getD []).takeWhile (fun c => c ≠ ':')

/-- Type token declared by a descriptor line (first word after the colon). -/
def fieldType (l : List Char) : List Char :=
  ((afterFirst (chars ": ") l).getD []).takeWhile (fun c => c ≠ ' ')

/-- Inclusive range bounds declared by a descriptor line, read from the
bracketed `[lo to hi]` segment. -/
def rangeBounds (l : List Char) : Option (List Char × List Char) :=
  (afterFirst (chars "[") l).bind fun rest =>
    (beforeFirst (chars "]") rest).bind fun inner =>
      (beforeFirst (chars " to ") inner).bind fun lo =>
        (afterFirst (chars " to ") inner).map fun hi => (lo, hi)

/-- Descriptor line of the named column, as characters. -/
def descLine (name : String) : List Char :=
  ((envHeaderBlock.find?
    (fun l => startsWithChars (keyPattern name) l.data)).getD "").data

/-! ## Data model of the standardization engine

Modelled from the spec: the engine components below (`merge`, `validate`,
`buildHeader`, `writeFile`, `resolve`) are not shipped in the repository tree;
only the demo notebooks that call `es.EnvironmentalSensor.convert` and the
canonical header block are.  Each definition follows the contract stated in
the specification for the named component. -/

/-- Modelled from the spec: kinds of `ValidationIssue` (spec section 3, plus
the `unresolved-identity` kind of section 4.2). -/
inductive IssueKind where
  | outOfRange
  | wrongType
  | missing
  | duplicateTimestamp
  | nonMonotonicGap
  | unresolvedIdentity
deriving DecidableEq, Repr

/-- Modelled from the spec: a `ValidationIssue` — sample index (or row
reference), column name, kind, message. -/
structure ValidationIssue where
  index : Nat
  column : String
  kind : IssueKind
  message : String
deriving DecidableEq, Repr

/-- Modelled from the spec: a `CanonicalSample` — a UTC timestamp at second
precision and the fixed ordered set of named numeric/boolean fields of the
modality, held positionally in the order of the modality's `ColumnSpec`
table (numeric values abstracted as integers). -/
structure CanonicalSample where
  ts : Nat
  vals : List Int
deriving DecidableEq, Repr

/-- Modelled from the spec: a `ColumnSpec` — name, declared type, declared
inclusive value range (absent when the source header line carries no
machine-readable numeric range), unit. -/
structure ColumnSpec where
  name : String
  dtype : String
  range : Option (Int × Int)
  unit : String
deriving DecidableEq, Repr

/-- Modelled from the spec: a `StandardizedSeries` — ordered samples,
participant and visit identity, modality, and accumulated issues. -/
structure StandardizedSeries where
  participantId : String
  visitId : String
  modality : String
  samples : List CanonicalSample
  issues : List ValidationIssue
deriving DecidableEq, Repr

/-- Modelled from the spec: a `ConversionResult` — participant, modality,
success flag, output path, row count, issue count. -/
structure ConversionResult where
  participantId : String
  modality : String
  success : Bool
  outputFile : String
  rowCount : Nat
  issueCount : Nat
deriving DecidableEq, Repr

/-- Modelled from the spec: one roster row of the `ParticipantVisitMapping`
table — device identifier, participant id, visit id. -/
structure RosterEntry where
  deviceId : String
  participantId : String
  visitId : String
deriving DecidableEq, Repr

/-- Modelled from the spec: a raw file after its parser adapter ran — path,
extracted device identifier and the parsed per-file sample batch. -/
structure RawFileRef where
  path : String
  deviceId : String
  samples : List CanonicalSample
deriving DecidableEq, Repr

/-- Number of issues of one kind in an issue list. -/
def countKind (iss : List ValidationIssue) (k : IssueKind) : Nat :=
  (iss.filter (fun x => decide (x.kind = k))).length

/-- Number of issues in an issue list that carry one sample index, one column
name and one kind. -/
def countAt (iss : List ValidationIssue) (i : Nat) (col : String) (k : IssueKind) : Nat :=
  (iss.filter (fun x => decide (x.index = i ∧ x.column = col ∧ x.kind = k))).length

/-! ## Merge and ordering engine

Modelled from the spec, section 4.3: concatenate the per-file batches, sort by
timestamp with ties broken by file discovery order then intra-file sequence,
deduplicate exact-timestamp duplicates keeping the first occurrence (one
`duplicate-timestamp` issue per discarded sample), then flag consecutive gaps
larger than the sampling interval times a configurable multiple. -/

/-- A sample tagged with its file discovery index and intra-file sequence
index, the tie-break keys of the merge sort. -/
structure TaggedSample where
  fileIdx : Nat
  seqIdx : Nat
  sample : CanonicalSample
deriving DecidableEq, Repr

/-- Sort key of the merge: timestamp first, then file discovery order, then
intra-file sequence.  Sorting by this key is the stable timestamp sort of the
spec. -/
def tagKey (t : TaggedSample) : Nat × Nat × Nat := (t.sample.ts, t.fileIdx, t.seqIdx)

/-- Lexicographic comparison of merge sort keys. -/
def tagLe (a b : TaggedSample) : Prop :=
  a.sample.ts < b.sample.ts ∨
    (a.sample.ts = b.sample.ts ∧
      (a.fileIdx < b.fileIdx ∨ (a.fileIdx = b.fileIdx ∧ a.seqIdx ≤ b.seqIdx)))

instance : DecidableRel tagLe := fun a b => by unfold tagLe; infer_instance

instance : IsTotal TaggedSample tagLe := ⟨by intro a b; unfold tagLe; omega⟩

instance : IsTrans TaggedSample tagLe := ⟨by intro a b c; unfold tagLe; omega⟩

/-- Strict version of `tagLe`: the sort keys compare strictly. -/
def tagLt (a b : TaggedSample) : Prop :=
  a.sample.ts < b.sample.ts ∨
    (a.sample.ts = b.sample.ts ∧
      (a.fileIdx < b.fileIdx ∨ (a.fileIdx = b.fileIdx ∧ a.seqIdx < b.seqIdx)))

instance : IsAntisymm TaggedSample tagLt :=
  ⟨by intro a b h1 h2; exfalso; unfold tagLt at h1 h2; omega⟩

/-- Two tagged samples with distinct sort keys. -/
def keyNe (a b : TaggedSample) : Prop := tagKey a ≠ tagKey b

/-- Timestamp comparison on tagged samples. -/
def sampLe (a b : TaggedSample) : Prop := a.sample.ts ≤ b.sample.ts

/-- Strict timestamp comparison on tagged samples. -/
def sampLt (a b : TaggedSample) : Prop := a.sample.ts < b.sample.ts

/-- Tags one file's batch with its discovery index, numbering the samples by
intra-file sequence starting at `j`. -/
def tagBatch (i : Nat) : Nat → List CanonicalSample → List TaggedSample
  | _, [] => []
  | j, s :: rest => ⟨i, j, s⟩ :: tagBatch i (j + 1) rest

/-- Tags every batch with its discovery index starting at `i`. -/
def tagBatchesFrom : Nat → List (List CanonicalSample) → List TaggedSample
  | _, [] => []
  | i, b :: bs => tagBatch i 0 b ++ tagBatchesFrom (i + 1) bs

/-- Concatenation of all per-file batches in file discovery order, each sample
tagged with its discovery index and intra-file sequence. -/
def tagBatches (bs : List (List CanonicalSample)) : List TaggedSample :=
  tagBatchesFrom 0 bs

/-- Issue recorded for a discarded exact-timestamp duplicate. -/
def mkDupIssue (t : TaggedSample) : ValidationIssue :=
  ⟨t.seqIdx, "ts", IssueKind.duplicateTimestamp, "duplicate timestamp discarded"⟩

/-- Walks the sorted tagged list keeping the first sample of every run of
equal timestamps; returns the kept samples and one `duplicate-timestamp`
issue per discarded sample. -/
def dedupGo (a : TaggedSample) : List TaggedSample → List TaggedSample × List ValidationIssue
  | [] => ([a], [])
  | b :: rest =>
    if a.sample.ts = b.sample.ts then
      ((dedupGo a rest).1, mkDupIssue b :: (dedupGo a rest).2)
    else
      (a :: (dedupGo b rest).1, (dedupGo b rest).2)

/-- Deduplication of exact-timestamp duplicates, keeping first occurrences. -/
def dedupKeepFirst : List TaggedSample → List TaggedSample × List ValidationIssue
  | [] => ([], [])
  | a :: rest => dedupGo a rest

/-- Issue recorded for a too-large gap before sample `t`. -/
def mkGapIssue (t : TaggedSample) : ValidationIssue :=
  ⟨t.seqIdx, "ts", IssueKind.nonMonotonicGap, "gap exceeds sampling interval threshold"⟩

/-- Scans consecutive pairs after `a` and flags every gap larger than the
threshold; flag only, no sample is dropped. -/
def gapGo (thresh : Nat) (a : TaggedSample) : List TaggedSample → List ValidationIssue
  | [] => []
  | b :: rest =>
    (if thresh < b.sample.ts - a.sample.ts then [mkGapIssue b] else []) ++ gapGo thresh b rest

/-- Gap scan of section 4.3: one `non-monotonic-gap` issue per consecutive
pair whose interval exceeds the sampling interval times the configured
multiple. -/
def gapScan (interval mult : Nat) : List TaggedSample → List ValidationIssue
  | [] => []
  | a :: rest => gapGo (interval * mult) a rest

/-- Merge engine on a tagged sample list in arbitrary arrival order: sort by
the merge key, deduplicate keeping first occurrences, then run the gap scan. -/
def mergeTagged (pid vid modality : String) (interval mult : Nat)
    (arrival : List TaggedSample) : StandardizedSeries :=
  let sorted := List.insertionSort tagLe arrival
  let dd := dedupKeepFirst sorted
  { participantId := pid
    visitId := vid
    modality := modality
    samples := dd.1.map (·.sample)
    issues := dd.2 ++ gapScan interval mult dd.1 }

/-- Modelled from the spec: the merge engine contract of section 4.3 on the
per-file batches in file discovery order. -/
def merge (pid vid modality : String) (interval mult : Nat)
    (bs : List (List CanonicalSample)) : StandardizedSeries :=
  mergeTagged pid vid modality interval mult (tagBatches bs)

/-! ## Schema validator

Modelled from the spec, section 4.4: for every sample and every declared
column verify presence and the declared inclusive range; violations are
recorded as non-fatal issues and the sample is retained unmodified — never
coerced or clamped. -/

/-- Checks one sample against one declared column at column index `c`: a
`missing` issue when the sample has no value at the column position, an
`out-of-range` issue when the value lies outside the declared inclusive
range. -/
def checkOne (i : Nat) (s : CanonicalSample) (c : Nat) (spec : ColumnSpec) : List ValidationIssue :=
  match s.vals.get? c with
  | none => [⟨i, spec.name, IssueKind.missing, "value missing"⟩]
  | some v =>
    match spec.range with
    | none => []
    | some (lo, hi) =>
      if v < lo ∨ hi < v then [⟨i, spec.name, IssueKind.outOfRange, "value out of range"⟩]
      else []

/-- Checks one sample against every declared column, starting at column
index `c`. -/
def checkCols (i : Nat) (s : CanonicalSample) : Nat → List ColumnSpec → List ValidationIssue
  | _, [] => []
  | c, spec :: rest => checkOne i s c spec ++ checkCols i s (c + 1) rest

/-- Checks every sample, numbering rows from `i`. -/
def checkRows (specs : List ColumnSpec) : Nat → List CanonicalSample → List ValidationIssue
  | _, [] => []
  | i, s :: rest => checkCols i s 0 specs ++ checkRows specs (i + 1) rest

/-- Modelled from the spec: the schema validator contract of section 4.4 —
returns the series with issues attached and the samples untouched. -/
def validate (specs : List ColumnSpec) (ser : StandardizedSeries) : StandardizedSeries :=
  { ser with issues := ser.issues ++ checkRows specs 0 ser.samples }

/-! ## Header generator and output writer

Modelled from the spec, sections 4.5 and 4.6: the header restates the column
list from the same `ColumnSpec` table the validator uses and reports the
observation count; the writer serializes header then rows to a temporary
location and atomically places the file at the destination only on success. -/

/-- Modelled from the spec: the generated `HeaderBlock` — observation count,
extent of observation in seconds, column count and column list, all computed
from the series and the `ColumnSpec` table. -/
structure HeaderBlock where
  observationCount : Nat
  extentSeconds : Nat
  columnCount : Nat
  columnList : List String
deriving DecidableEq, Repr

/-- Largest timestamp of a series (0 when empty). -/
def maxTs (ser : StandardizedSeries) : Nat :=
  (ser.samples.map (·.ts)).foldr max 0

/-- Smallest timestamp of a series (`maxTs` when empty, making the extent 0). -/
def minTs (ser : StandardizedSeries) : Nat :=
  (ser.samples.map (·.ts)).foldr min (maxTs ser)

/-- Modelled from the spec: the header generator contract of section 4.5. -/
def buildHeader (specs : List ColumnSpec) (ser : StandardizedSeries) : HeaderBlock :=
  { observationCount := ser.samples.length
    extentSeconds := maxTs ser - minTs ser
    columnCount := specs.length
    columnList := specs.map (·.name) }

/-- Data row of one sample in the declared column order: the value of column
`c` is rendered at position `c`. -/
def renderRow (specs : List ColumnSpec) (s : CanonicalSample) : List Int :=
  (List.range specs.length).map (fun c => s.vals.getD c 0)

/-- Serialized form of one data row. -/
def rowLine (specs : List ColumnSpec) (s : CanonicalSample) : String :=
  String.intercalate "," ((renderRow specs s).map toString)

/-- Serialized header lines of a generated header block. -/
def headerLinesOf (hdr : HeaderBlock) : List String :=
  ["# meta_number_of_observations: " ++ toString hdr.observationCount,
   "# number_of_data_columns: " ++ toString hdr.columnCount,
   "# data_column_list: " ++ String.intercalate "," hdr.columnList]

/-- Modelled from the spec: full serialized output file — header block then
data rows in series order. -/
def renderFile (specs : List ColumnSpec) (hdr : HeaderBlock) (ser : StandardizedSeries) : List String :=
  headerLinesOf hdr ++ ser.samples.map (rowLine specs)

/-- State of the two file locations the writer touches: the final destination
path and the temporary location. -/
structure FileState where
  dest : Option (List String)
  temp : Option (List String)
deriving DecidableEq, Repr

/-- Appends lines one at a time to the temporary file; an injected I/O failure
at step `n` (`failAt = some n`) aborts the loop.  Returns the finished
temporary content, or `none` when the failure hit. -/
def appendLines (failAt : Option Nat) : Nat → List String → List String → Option (List String)
  | _, acc, [] => some acc.reverse
  | n, acc, l :: ls =>
    if failAt = some n then none else appendLines failAt (n + 1) (l :: acc) ls

/-- Structural abort condition of section 4.4: a sample whose column count
conflicts with the declared layout. -/
def structuralMismatch (specs : List ColumnSpec) (ser : StandardizedSeries) : Bool :=
  ser.samples.any (fun s => s.vals.length ≠ specs.length)

/-- Modelled from the spec: the output writer contract of section 4.6 — write
the rendered file to the temporary location line by line; on completion place
the content atomically at the destination; on a structural issue or an I/O
failure leave the destination unchanged and remove the temporary file. -/
def writeFile (fs : FileState) (specs : List ColumnSpec) (hdr : HeaderBlock)
    (ser : StandardizedSeries) (dest : String) (failAt : Option Nat) :
    FileState × ConversionResult :=
  if structuralMismatch specs ser then
    ({ dest := fs.dest, temp := none },
     ⟨ser.participantId, ser.modality, false, dest, ser.samples.length, ser.issues.length⟩)
  else
    match appendLines failAt 0 [] (renderFile specs hdr ser) with
    | none =>
      ({ dest := fs.dest, temp := none },
       ⟨ser.participantId, ser.modality, false, dest, ser.samples.length, ser.issues.length⟩)
    | some content =>
      ({ dest := some content, temp := none },
       ⟨ser.participantId, ser.modality, true, dest, ser.samples.length, ser.issues.length⟩)

/-! ## Participant/visit resolver

Modelled from the spec, section 4.2: exact-match lookup of the device
identifier in the read-only roster; `NotFound` is not fatal — it records an
`unresolved-identity` issue and excludes the owning file's samples. -/

/-- Modelled from the spec: the resolver contract of section 4.2 —
exact-match roster lookup, `none` playing the role of `NotFound`. -/
def resolve (roster : List RosterEntry) (d : String) : Option RosterEntry :=
  roster.find? (fun e => e.deviceId == d)

/-- Issue recorded for a file whose device identifier is not in the roster. -/
def mkUnresolvedIssue (f : RawFileRef) : ValidationIssue :=
  ⟨0, "device_id", IssueKind.unresolvedIdentity, f.path⟩

/-- Splits the discovered files into those whose device identifier resolves
(kept, in discovery order) and one `unresolved-identity` issue per file whose
identifier does not. -/
def splitResolved (roster : List RosterEntry) : List RawFileRef → List RawFileRef × List ValidationIssue
  | [] => ([], [])
  | f :: rest =>
    match resolve roster f.deviceId with
    | some _ => (f :: (splitResolved roster rest).1, (splitResolved roster rest).2)
    | none => ((splitResolved roster rest).1, mkUnresolvedIssue f :: (splitResolved roster rest).2)

/-- Modelled from the spec: one participant/modality conversion — resolve
every discovered file, merge the batches of the resolved files, and carry the
`unresolved-identity` issues on the resulting series. -/
def convertFiles (pid vid modality : String) (interval mult : Nat)
    (roster : List RosterEntry) (files : List RawFileRef) : StandardizedSeries :=
  let p := splitResolved roster files
  let ser := merge pid vid modality interval mult (p.1.map (·.samples))
  { ser with issues := p.2 ++ ser.issues }

/-! ## The environmental-sensor ColumnSpec table read from the shipped header -/

/-- Integer range bound parsed from a declared bound literal; `none` when the
literal is not an unsigned decimal integer. -/
def parseIntBound (cs : List Char) : Option Int := (natFrom cs).map Int.ofNat

/-- ColumnSpec read from one descriptor line of the shipped header block (the
trailing free-text description and units are not machine-parsed). -/
def parseDescriptor (l : List Char) : ColumnSpec :=
  { name := String.mk (fieldName l)
    dtype := String.mk (fieldType l)
    range := (rangeBounds l).bind (fun p =>
      match parseIntBound p.1, parseIntBound p.2 with
      | some lo, some hi => some (lo, hi)
      | _, _ => none)
    unit := "" }

/-- The environmental-sensor ColumnSpec table, generated from the shipped
header block — the single source of truth the validator and the header
generator share. -/
def envColumnSpecs : List ColumnSpec := descriptorLines.map parseDescriptor

/-! ## Concrete samples of the specification's test scenario

Timestamps are UTC seconds: 1704067200 is 2024-01-01T00:00:00Z. -/

/-- Sample at 2024-01-01T00:00:00Z with value 5. -/
def sampleT0 : CanonicalSample := ⟨1704067200, [5]⟩

/-- Sample at 2024-01-01T00:00:05Z with value 7. -/
def sampleT5 : CanonicalSample := ⟨1704067205, [7]⟩

/-- Sample at 2024-01-01T00:01:00Z with value 9. -/
def sampleT60 : CanonicalSample := ⟨1704067260, [9]⟩

/-! ## Properties of the merge order and tagging -/

theorem keyNe_symm {a b : TaggedSample} (h : keyNe a b) : keyNe b a := by
  unfold keyNe at *
  exact fun e => h e.symm

theorem keyNe_of_idx {a b : TaggedSample}
    (h : a.fileIdx ≠ b.fileIdx ∨ a.seqIdx ≠ b.seqIdx) : keyNe a b := by
  unfold keyNe tagKey
  intro hEq
  have h3 : a.sample.ts = b.sample.ts ∧ a.fileIdx = b.fileIdx ∧ a.seqIdx = b.seqIdx := by
    simpa [Prod.ext_iff] using hEq
  rcases h with h | h <;> omega

theorem tagLt_of_le_ne {a b : TaggedSample} (h1 : tagLe a b) (h2 : keyNe a b) : tagLt a b := by
  unfold tagLe at h1
  simp only [keyNe, tagKey, ne_eq, Prod.mk.injEq] at h2
  unfold tagLt
  omega

theorem mem_tagBatch_idx {i j : Nat} {b : List CanonicalSample} {x : TaggedSample}
    (hx : x ∈ tagBatch i j b) : x.fileIdx = i ∧ j ≤ x.seqIdx := by
  induction b generalizing j with
  | nil => simp [tagBatch] at hx
  | cons s rest ih =>
    simp only [tagBatch, List.mem_cons] at hx
    rcases hx with rfl | hx
    · exact ⟨rfl, Nat.le_refl _⟩
    · obtain ⟨h1, h2⟩ := ih hx
      exact ⟨h1, by omega⟩

theorem pairwise_keyNe_tagBatch (i j : Nat) (b : List CanonicalSample) :
    List.Pairwise keyNe (tagBatch i j b) := by
  induction b generalizing j with
  | nil => simp [tagBatch]
  | cons s rest ih =>
    refine List.Pairwise.cons ?_ (ih (j + 1))
    intro x hx
    obtain ⟨h1, h2⟩ := mem_tagBatch_idx hx
    exact keyNe_of_idx (Or.inr (by simp only []; omega))

theorem mem_tagBatchesFrom_idx {i : Nat} {bs : List (List CanonicalSample)} {x : TaggedSample}
    (hx : x ∈ tagBatchesFrom i bs) : i ≤ x.fileIdx := by
  induction bs generalizing i with
  | nil => simp [tagBatchesFrom] at hx
  | cons b rest ih =>
    simp only [tagBatchesFrom, List.mem_append] at hx
    rcases hx with hx | hx
    · exact (mem_tagBatch_idx hx).1 ▸ Nat.le_refl _
    · exact Nat.le_of_succ_le (ih hx)

theorem pairwise_keyNe_tagBatchesFrom (i : Nat) (bs : List (List CanonicalSample)) :
    List.Pairwise keyNe (tagBatchesFrom i bs) := by
  induction bs generalizing i with
  | nil => simp [tagBatchesFrom]
  | cons b rest ih =>
    simp only [tagBatchesFrom]
    rw [List.pairwise_append]
    refine ⟨pairwise_keyNe_tagBatch i 0 b, ih (i + 1), ?_⟩
    intro x hx y hy
    have h1 := (mem_tagBatch_idx hx).1
    have h2 := mem_tagBatchesFrom_idx hy
    exact keyNe_of_idx (Or.inl (by omega))

theorem pairwise_keyNe_tagBatches (bs : List (List CanonicalSample)) :
    List.Pairwise keyNe (tagBatches bs) :=
  pairwise_keyNe_tagBatchesFrom 0 bs

/-- Sorting by the merge key is insensitive to the arrival order of the tagged
samples: any two permutations of a key-distinct list sort to the same list. -/
theorem insertionSort_eq_of_perm {l1 l2 : List TaggedSample}
    (hp : l1.Perm l2) (hnd : List.Pairwise keyNe l2) :
    List.insertionSort tagLe l1 = List.insertionSort tagLe l2 := by
  have hperm : (List.insertionSort tagLe l1).Perm (List.insertionSort tagLe l2) :=
    ((List.perm_insertionSort tagLe l1).trans hp).trans
      (List.perm_insertionSort tagLe l2).symm
  have hs1 : List.Pairwise tagLe (List.insertionSort tagLe l1) :=
    List.sorted_insertionSort tagLe l1
  have hs2 : List.Pairwise tagLe (List.insertionSort tagLe l2) :=
    List.sorted_insertionSort tagLe l2
  have hnd2 : List.Pairwise keyNe (List.insertionSort tagLe l2) :=
    ((List.perm_insertionSort tagLe l2).pairwise_iff (fun h => keyNe_symm h)).mpr hnd
  have hnd1 : List.Pairwise keyNe (List.insertionSort tagLe l1) :=
    (hperm.pairwise_iff (fun h => keyNe_symm h)).mpr hnd2
  have strict1 : List.Sorted tagLt (List.insertionSort tagLe l1) :=
    (hs1.and hnd1).imp (fun h => tagLt_of_le_ne h.1 h.2)
  have strict2 : List.Sorted tagLt (List.insertionSort tagLe l2) :=
    (hs2.and hnd2).imp (fun h => tagLt_of_le_ne h.1 h.2)
  exact List.eq_of_perm_of_sorted hperm strict1 strict2

/-! ## Properties of deduplication and the gap scan -/

theorem pairwise_sampLe_of_tagLe {l : List TaggedSample}
    (h : List.Pairwise tagLe l) : List.Pairwise sampLe l :=
  h.imp (fun hab => by unfold tagLe at hab; unfold sampLe; omega)

theorem dedupGo_sublist : ∀ (l : List TaggedSample) (a : TaggedSample),
    (dedupGo a l).1.Sublist (a :: l)
  | [], a => by simp [dedupGo]
  | b :: rest, a => by
    by_cases h : a.sample.ts = b.sample.ts
    · rw [dedupGo, if_pos h]
      exact (dedupGo_sublist rest a).trans
        (List.Sublist.cons₂ a (List.sublist_cons_self b rest))
    · rw [dedupGo, if_neg h]
      exact List.Sublist.cons₂ a (dedupGo_sublist rest b)

theorem dedupGo_strict : ∀ (l : List TaggedSample) (a : TaggedSample),
    List.Pairwise sampLe (a :: l) → List.Pairwise sampLt (dedupGo a l).1
  | [], a => by
    intro _
    simp [dedupGo]
  | b :: rest, a => by
    intro hp
    rw [List.pairwise_cons] at hp
    obtain ⟨ha, hp'⟩ := hp
    by_cases h : a.sample.ts = b.sample.ts
    · rw [dedupGo, if_pos h]
      refine dedupGo_strict rest a ?_
      rw [List.pairwise_cons] at hp' ⊢
      exact ⟨fun x hx => ha x (List.mem_cons_of_mem b hx), hp'.2⟩
    · rw [dedupGo, if_neg h]
      refine List.Pairwise.cons ?_ (dedupGo_strict rest b hp')
      intro x hx
      have hmem : x ∈ b :: rest := (dedupGo_sublist rest b).subset hx
      have hab : a.sample.ts ≤ b.sample.ts := ha b (List.mem_cons_self b rest)
      rcases List.mem_cons.mp hmem with rfl | hxr
      · unfold sampLt; omega
      · have h1 : b.sample.ts ≤ x.sample.ts := by
          rw [List.pairwise_cons] at hp'
          exact hp'.1 x hxr
        unfold sampLt; omega

theorem dedupGo_count : ∀ (l : List TaggedSample) (a : TaggedSample),
    (dedupGo a l).1.length + (dedupGo a l).2.length = l.length + 1
  | [], a => by simp [dedupGo]
  | b :: rest, a => by
    by_cases h : a.sample.ts = b.sample.ts
    · rw [dedupGo, if_pos h]
      have := dedupGo_count rest a
      simp only [List.length_cons]
      omega
    · rw [dedupGo, if_neg h]
      have := dedupGo_count rest b
      simp only [List.length_cons]
      omega

theorem dedupGo_issues_kind : ∀ (l : List TaggedSample) (a : TaggedSample),
    ∀ x ∈ (dedupGo a l).2, x.kind = IssueKind.duplicateTimestamp
  | [], a => by simp [dedupGo]
  | b :: rest, a => by
    by_cases h : a.sample.ts = b.sample.ts
    · rw [dedupGo, if_pos h]
      intro x hx
      rcases List.mem_cons.mp hx with rfl | hx
      · rfl
      · exact dedupGo_issues_kind rest a x hx
    · rw [dedupGo, if_neg h]
      exact dedupGo_issues_kind rest b

theorem dedupGo_ts_mem : ∀ (l : List TaggedSample) (a : TaggedSample) (t : Nat),
    (∃ x ∈ (dedupGo a l).1, x.sample.ts = t) ↔ (∃ x ∈ a :: l, x.sample.ts = t)
  | [], a, t => by simp [dedupGo]
  | b :: rest, a, t => by
    by_cases h : a.sample.ts = b.sample.ts
    · rw [dedupGo, if_pos h]
      rw [dedupGo_ts_mem rest a t]
      constructor
      · rintro ⟨x, hx, rfl⟩
        rcases List.mem_cons.mp hx with rfl | hx
        · exact ⟨x, List.mem_cons_self _ _, rfl⟩
        · exact ⟨x, by simp [List.mem_cons, hx], rfl⟩
      · rintro ⟨x, hx, rfl⟩
        rcases List.mem_cons.mp hx with rfl | hx
        · exact ⟨x, List.mem_cons_self _ _, rfl⟩
        · rcases List.mem_cons.mp hx with rfl | hx
          · exact ⟨a, List.mem_cons_self _ _, h⟩
          · exact ⟨x, by simp [List.mem_cons, hx], rfl⟩
    · rw [dedupGo, if_neg h]
      constructor
      · rintro ⟨x, hx, rfl⟩
        rcases List.mem_cons.mp hx with rfl | hx
        · exact ⟨x, List.mem_cons_self _ _, rfl⟩
        · obtain ⟨y, hy, hyt⟩ := (dedupGo_ts_mem rest b x.sample.ts).mp ⟨x, hx, rfl⟩
          exact ⟨y, by simp [List.mem_cons] at hy ⊢; tauto, hyt⟩
      · rintro ⟨x, hx, rfl⟩
        rcases List.mem_cons.mp hx with rfl | hx
        · exact ⟨x, List.mem_cons_self _ _, rfl⟩
        · obtain ⟨y, hy, hyt⟩ := (dedupGo_ts_mem rest b x.sample.ts).mpr ⟨x, hx, rfl⟩
          exact ⟨y, List.mem_cons_of_mem a hy, hyt⟩

theorem gapGo_issues_kind : ∀ (l : List TaggedSample) (th : Nat) (a : TaggedSample),
    ∀ x ∈ gapGo th a l, x.kind = IssueKind.nonMonotonicGap
  | [], th, a => by simp [gapGo]
  | b :: rest, th, a => by
    intro x hx
    rw [gapGo] at hx
    rcases List.mem_append.mp hx with hx | hx
    · by_cases h : th < b.sample.ts - a.sample.ts
      · rw [if_pos h] at hx
        rcases List.mem_cons.mp hx with rfl | hx
        · rfl
        · simp at hx
      · rw [if_neg h] at hx
        simp at hx
    · exact gapGo_issues_kind rest th b x hx

theorem gapGo_length : ∀ (l : List TaggedSample) (th : Nat) (a : TaggedSample),
    (gapGo th a l).length =
      (((a :: l).zip l).filter
        (fun p => decide (th < p.2.sample.ts - p.1.sample.ts))).length
  | [], th, a => by simp [gapGo]
  | b :: rest, th, a => by
    have ih := gapGo_length rest th b
    rw [gapGo, List.zip_cons_cons, List.filter_cons]
    by_cases h : th < b.sample.ts - a.sample.ts
    · rw [if_pos h, if_pos (by simpa using h)]
      simp only [List.length_append, List.length_cons, List.length_nil]
      omega
    · rw [if_neg h, if_neg (by simpa using h)]
      simpa using ih

/-! ## Counting lemmas for issue lists -/

theorem countKind_append (l1 l2 : List ValidationIssue) (k : IssueKind) :
    countKind (l1 ++ l2) k = countKind l1 k + countKind l2 k := by
  unfold countKind
  rw [List.filter_append, List.length_append]

theorem countKind_all {l : List ValidationIssue} {k : IssueKind}
    (h : ∀ x ∈ l, x.kind = k) : countKind l k = l.length := by
  unfold countKind
  induction l with
  | nil => rfl
  | cons a rest ih =>
    rw [List.filter_cons, if_pos (by simpa using h a (List.mem_cons_self a rest))]
    simp only [List.length_cons]
    rw [ih (fun x hx => h x (List.mem_cons_of_mem a hx))]

theorem countKind_none {l : List ValidationIssue} {k : IssueKind}
    (h : ∀ x ∈ l, x.kind ≠ k) : countKind l k = 0 := by
  unfold countKind
  induction l with
  | nil => rfl
  | cons a rest ih =>
    rw [List.filter_cons, if_neg (by simpa using h a (List.mem_cons_self a rest))]
    exact ih (fun x hx => h x (List.mem_cons_of_mem a hx))

theorem countAt_append (l1 l2 : List ValidationIssue) (i : Nat) (col : String) (k : IssueKind) :
    countAt (l1 ++ l2) i col k = countAt l1 i col k + countAt l2 i col k := by
  unfold countAt
  rw [List.filter_append, List.length_append]

theorem countAt_none {l : List ValidationIssue} {i : Nat} {col : String} {k : IssueKind}
    (h : ∀ x ∈ l, ¬(x.index = i ∧ x.column = col ∧ x.kind = k)) : countAt l i col k = 0 := by
  unfold countAt
  induction l with
  | nil => rfl
  | cons a rest ih =>
    rw [List.filter_cons, if_neg (by simpa using h a (List.mem_cons_self a rest))]
    exact ih (fun x hx => h x (List.mem_cons_of_mem a hx))

/-! ## Size and membership of the tagged concatenation -/

theorem tagBatch_length (i j : Nat) (b : List CanonicalSample) :
    (tagBatch i j b).length = b.length := by
  induction b generalizing j with
  | nil => rfl
  | cons s rest ih => simp [tagBatch, ih]

theorem tagBatchesFrom_length (i : Nat) (bs : List (List CanonicalSample)) :
    (tagBatchesFrom i bs).length = (bs.map List.length).sum := by
  induction bs generalizing i with
  | nil => rfl
  | cons b rest ih =>
    simp [tagBatchesFrom, tagBatch_length, ih]

theorem exists_ts_tagBatch (i j : Nat) (b : List CanonicalSample) (t : Nat) :
    (∃ x ∈ tagBatch i j b, x.sample.ts = t) ↔ (∃ s ∈ b, s.ts = t) := by
  induction b generalizing j with
  | nil => simp [tagBatch]
  | cons s rest ih =>
    simp only [tagBatch, List.mem_cons]
    constructor
    · rintro ⟨x, hx | hx, ht⟩
      · exact ⟨s, Or.inl rfl, by rw [hx] at ht; exact ht⟩
      · obtain ⟨y, hy, hyt⟩ := (ih (j + 1)).mp ⟨x, hx, ht⟩
        exact ⟨y, Or.inr hy, hyt⟩
    · rintro ⟨y, hy | hy, ht⟩
      · exact ⟨⟨i, j, s⟩, Or.inl rfl, by rw [hy] at ht; exact ht⟩
      · obtain ⟨x, hx, hxt⟩ := (ih (j + 1)).mpr ⟨y, hy, ht⟩
        exact ⟨x, Or.inr hx, hxt⟩

theorem exists_ts_tagBatchesFrom (i : Nat) (bs : List (List CanonicalSample)) (t : Nat) :
    (∃ x ∈ tagBatchesFrom i bs, x.sample.ts = t) ↔ (∃ b ∈ bs, ∃ s ∈ b, s.ts = t) := by
  induction bs generalizing i with
  | nil => simp [tagBatchesFrom]
  | cons b rest ih =>
    simp only [tagBatchesFrom, List.mem_append, List.mem_cons]
    constructor
    · rintro ⟨x, hx | hx, ht⟩
      · obtain ⟨s, hs, hst⟩ := (exists_ts_tagBatch i 0 b t).mp ⟨x, hx, ht⟩
        exact ⟨b, Or.inl rfl, s, hs, hst⟩
      · obtain ⟨b', hb', s, hs, hst⟩ := (ih (i + 1)).mp ⟨x, hx, ht⟩
        exact ⟨b', Or.inr hb', s, hs, hst⟩
    · rintro ⟨b', hb' | hb', s, hs, hst⟩
      · obtain ⟨x, hx, hxt⟩ := (exists_ts_tagBatch i 0 b t).mpr ⟨s, hb' ▸ hs, hst⟩
        exact ⟨x, Or.inl hx, hxt⟩
      · obtain ⟨x, hx, hxt⟩ := (ih (i + 1)).mpr ⟨b', hb', s, hs, hst⟩
        exact ⟨x, Or.inr hx, hxt⟩

/-! ## Resolver lemmas -/

theorem splitResolved_fst (roster : List RosterEntry) (files : List RawFileRef) :
    (splitResolved roster files).1 =
      files.filter (fun f => (resolve roster f.deviceId).isSome) := by
  induction files with
  | nil => rfl
  | cons f rest ih =>
    rw [List.filter_cons]
    cases h : resolve roster f.deviceId with
    | some e => rw [splitResolved, h, if_pos (by rfl), ih]
    | none => rw [splitResolved, h, if_neg (by simp), ih]

theorem splitResolved_snd_length (roster : List RosterEntry) (files : List RawFileRef) :
    (splitResolved roster files).2.length =
      (files.filter (fun f => (resolve roster f.deviceId).isNone)).length := by
  induction files with
  | nil => rfl
  | cons f rest ih =>
    rw [List.filter_cons]
    cases h : resolve roster f.deviceId with
    | some e =>
      rw [splitResolved, h, if_neg (by simp), ih]
    | none =>
      rw [splitResolved, h, if_pos (by rfl)]
      simp only [List.length_cons]
      rw [ih]

theorem splitResolved_issue_mem {roster : List RosterEntry} {files : List RawFileRef}
    {f : RawFileRef} (hf : f ∈ files) (hr : resolve roster f.deviceId = none) :
    mkUnresolvedIssue f ∈ (splitResolved roster files).2 := by
  induction files with
  | nil => simp at hf
  | cons g rest ih =>
    rcases List.mem_cons.mp hf with rfl | hf
    · rw [splitResolved, hr]
      exact List.mem_cons_self _ _
    · cases h : resolve roster g.deviceId with
      | some e => rw [splitResolved, h]; exact ih hf
      | none => rw [splitResolved, h]; exact List.mem_cons_of_mem _ (ih hf)

theorem resolve_eq_none_iff (roster : List RosterEntry) (d : String) :
    resolve roster d = none ↔ ∀ e ∈ roster, e.deviceId ≠ d := by
  unfold resolve
  rw [List.find?_eq_none]
  constructor
  · intro h e he
    have := h e he
    simpa using this
  · intro h e he
    simpa using h e he

/-! ## Writer lemmas -/

theorem appendLines_none_or (failAt : Option Nat) :
    ∀ (ls : List String) (n : Nat) (acc : List String),
      appendLines failAt n acc ls = none ∨
        appendLines failAt n acc ls = some (acc.reverse ++ ls)
  | [], n, acc => by simp [appendLines]
  | l :: ls, n, acc => by
    rw [appendLines]
    by_cases h : failAt = some n
    · rw [if_pos h]
      exact Or.inl rfl
    · rw [if_neg h]
      rcases appendLines_none_or failAt ls (n + 1) (l :: acc) with h2 | h2
      · exact Or.inl h2
      · refine Or.inr ?_
        rw [h2]
        simp

/-! ## Validator lemmas -/

theorem checkOne_fields {i : Nat} {s : CanonicalSample} {c : Nat} {spec : ColumnSpec} :
    ∀ x ∈ checkOne i s c spec, x.index = i ∧ x.column = spec.name := by
  intro x hx
  unfold checkOne at hx
  split at hx
  · rcases List.mem_cons.mp hx with rfl | hx
    · exact ⟨rfl, rfl⟩
    · simp at hx
  · split at hx
    · simp at hx
    · split at hx
      · rcases List.mem_cons.mp hx with rfl | hx
        · exact ⟨rfl, rfl⟩
        · simp at hx
      · simp at hx

theorem countAt_checkOne_self {i : Nat} {s : CanonicalSample} {c : Nat} {spec : ColumnSpec}
    {lo hi : Int} {v : Int} (hr : spec.range = some (lo, hi))
    (hv : s.vals.get? c = some v) :
    countAt (checkOne i s c spec) i spec.name IssueKind.outOfRange =
      (if v < lo ∨ hi < v then 1 else 0) := by
  unfold checkOne
  simp only [hv, hr]
  by_cases hc : v < lo ∨ hi < v
  · rw [if_pos hc, if_pos hc]
    simp [countAt]
  · rw [if_neg hc, if_neg hc]
    simp [countAt]

theorem countAt_checkOne_other {i : Nat} {s : CanonicalSample} {c : Nat}
    {spec : ColumnSpec} {col : String} (h : col ≠ spec.name) (i' : Nat) (k : IssueKind) :
    countAt (checkOne i s c spec) i' col k = 0 :=
  countAt_none (fun x hx hc => h (hc.2.1 ▸ (checkOne_fields x hx).2))

theorem countAt_checkOne_other_row {i : Nat} {s : CanonicalSample} {c : Nat}
    {spec : ColumnSpec} {i' : Nat} (h : i' ≠ i) (col : String) (k : IssueKind) :
    countAt (checkOne i s c spec) i' col k = 0 :=
  countAt_none (fun x hx hc => h (hc.1 ▸ (checkOne_fields x hx).1))

theorem countAt_checkCols_not_mem {i : Nat} {s : CanonicalSample} {col : String} :
    ∀ (specs : List ColumnSpec) (c : Nat), col ∉ specs.map (·.name) →
      ∀ (i' : Nat) (k : IssueKind), countAt (checkCols i s c specs) i' col k = 0
  | [], c => by
    intro _ i' k
    rfl
  | spec :: rest, c => by
    intro h i' k
    rw [checkCols, countAt_append]
    have h1 : col ≠ spec.name := by
      intro hcontra
      exact h (by simp [hcontra])
    have h2 : col ∉ rest.map (·.name) := by
      intro hcontra
      exact h (by simp [hcontra])
    rw [countAt_checkOne_other h1, countAt_checkCols_not_mem rest (c + 1) h2 i' k]

theorem countAt_checkCols {i : Nat} {s : CanonicalSample} :
    ∀ (specs : List ColumnSpec) (c0 c : Nat) (spec : ColumnSpec) (lo hi v : Int),
      specs.get? c0 = some spec → spec.range = some (lo, hi) →
      (specs.map (·.name)).Nodup → s.vals.get? (c + c0) = some v →
      countAt (checkCols i s c specs) i spec.name IssueKind.outOfRange =
        (if v < lo ∨ hi < v then 1 else 0)
  | [], c0, c, spec, lo, hi, v => by
    intro hget _ _ _
    simp at hget
  | spec0 :: rest, c0, c, spec, lo, hi, v => by
    intro hget hr hnd hv
    rw [checkCols, countAt_append]
    rw [List.map_cons, List.nodup_cons] at hnd
    cases c0 with
    | zero =>
      have hsp : spec0 = spec := by simpa using hget
      subst hsp
      have hv' : s.vals.get? c = some v := by simpa using hv
      rw [countAt_checkOne_self hr hv',
        countAt_checkCols_not_mem rest (c + 1) hnd.1 i IssueKind.outOfRange]
      rw [Nat.add_zero]
    | succ n =>
      have hget' : rest.get? n = some spec := by simpa using hget
      have hmem : spec.name ∈ rest.map (·.name) := by
        refine List.mem_map.mpr ⟨spec, ?_, rfl⟩
        exact List.get?_mem hget'
      have hne : spec.name ≠ spec0.name := by
        intro hcontra
        exact hnd.1 (hcontra ▸ hmem)
      have hv' : s.vals.get? ((c + 1) + n) = some v := by
        have : c + (n + 1) = (c + 1) + n := by omega
        rw [← this]
        exact hv
      rw [countAt_checkOne_other hne,
        countAt_checkCols rest n (c + 1) spec lo hi v hget' hr hnd.2 hv']
      omega

theorem checkCols_index {i : Nat} {s : CanonicalSample} :
    ∀ (specs : List ColumnSpec) (c : Nat), ∀ x ∈ checkCols i s c specs, x.index = i
  | [], c => by simp [checkCols]
  | spec :: rest, c => by
    intro x hx
    rw [checkCols] at hx
    rcases List.mem_append.mp hx with hx | hx
    · exact (checkOne_fields x hx).1
    · exact checkCols_index rest (c + 1) x hx

theorem checkRows_index_ge {specs : List ColumnSpec} :
    ∀ (rows : List CanonicalSample) (n : Nat), ∀ x ∈ checkRows specs n rows, n ≤ x.index
  | [], n => by simp [checkRows]
  | s :: rest, n => by
    intro x hx
    rw [checkRows] at hx
    rcases List.mem_append.mp hx with hx | hx
    · exact (checkCols_index specs 0 x hx).ge
    · exact Nat.le_of_succ_le (checkRows_index_ge rest (n + 1) x hx)

theorem countAt_checkRows {specs : List ColumnSpec} :
    ∀ (rows : List CanonicalSample) (n i : Nat) (s : CanonicalSample),
      rows.get? i = some s → ∀ (col : String) (k : IssueKind),
      countAt (checkRows specs n rows) (n + i) col k =
        countAt (checkCols (n + i) s 0 specs) (n + i) col k
  | [], n, i, s => by
    intro hget
    simp at hget
  | s0 :: rest, n, i, s => by
    intro hget col k
    rw [checkRows, countAt_append]
    cases i with
    | zero =>
      have hs : s0 = s := by simpa using hget
      subst hs
      have h2 : countAt (checkRows specs (n + 1) rest) (n + 0) col k = 0 :=
        countAt_none (fun x hx hc => by
          have := checkRows_index_ge rest (n + 1) x hx
          omega)
      rw [h2, Nat.add_zero, Nat.add_zero]
    | succ m =>
      have hget' : rest.get? m = some s := by simpa using hget
      have h1 : countAt (checkCols n s0 0 specs) (n + (m + 1)) col k = 0 :=
        countAt_none (fun x hx hc => by
          have := checkCols_index specs 0 x hx
          omega)
      have heq : n + (m + 1) = (n + 1) + m := by omega
      rw [h1, Nat.zero_add, heq, countAt_checkRows rest (n + 1) m s hget' col k]

/-! ## Deduplication wrappers -/

theorem dedupKeepFirst_strict {l : List TaggedSample} (h : List.Pairwise sampLe l) :
    List.Pairwise sampLt (dedupKeepFirst l).1 := by
  cases l with
  | nil => simp [dedupKeepFirst]
  | cons a rest => exact dedupGo_strict rest a h

theorem dedupKeepFirst_count (l : List TaggedSample) :
    (dedupKeepFirst l).1.length + (dedupKeepFirst l).2.length = l.length := by
  cases l with
  | nil => rfl
  | cons a rest =>
    have := dedupGo_count rest a
    simp only [dedupKeepFirst, List.length_cons]
    omega

theorem dedupKeepFirst_issues_kind {l : List TaggedSample} :
    ∀ x ∈ (dedupKeepFirst l).2, x.kind = IssueKind.duplicateTimestamp := by
  cases l with
  | nil => simp [dedupKeepFirst]
  | cons a rest => exact dedupGo_issues_kind rest a

theorem dedupKeepFirst_ts_mem (l : List TaggedSample) (t : Nat) :
    (∃ x ∈ (dedupKeepFirst l).1, x.sample.ts = t) ↔ (∃ x ∈ l, x.sample.ts = t) := by
  cases l with
  | nil => simp [dedupKeepFirst]
  | cons a rest => exact dedupGo_ts_mem rest a t

/-! ## Projections of the merge output -/

theorem mergeTagged_samples (pid vid m : String) (interval mult : Nat)
    (arrival : List TaggedSample) :
    (mergeTagged pid vid m interval mult arrival).samples =
      (dedupKeepFirst (List.insertionSort tagLe arrival)).1.map (·.sample) := rfl

theorem mergeTagged_issues (pid vid m : String) (interval mult : Nat)
    (arrival : List TaggedSample) :
    (mergeTagged pid vid m interval mult arrival).issues =
      (dedupKeepFirst (List.insertionSort tagLe arrival)).2 ++
        gapScan interval mult (dedupKeepFirst (List.insertionSort tagLe arrival)).1 := rfl

theorem merge_def (pid vid m : String) (interval mult : Nat)
    (bs : List (List CanonicalSample)) :
    merge pid vid m interval mult bs =
      mergeTagged pid vid m interval mult (tagBatches bs) := rfl

/-! ## Gap scan wrappers -/

theorem gapScan_issues_kind {interval mult : Nat} {l : List TaggedSample} :
    ∀ x ∈ gapScan interval mult l, x.kind = IssueKind.nonMonotonicGap := by
  cases l with
  | nil => simp [gapScan]
  | cons a rest => exact gapGo_issues_kind rest (interval * mult) a

theorem gapScan_length (interval mult : Nat) (l : List TaggedSample) :
    (gapScan interval mult l).length =
      ((l.zip l.tail).filter
        (fun p => decide (interval * mult < p.2.sample.ts - p.1.sample.ts))).length := by
  cases l with
  | nil => rfl
  | cons a rest => exact gapGo_length rest (interval * mult) a

/-! ## The claims -/

/-- C9: in the canonical environmental-sensor header block shipped in the
repository, the declared count fields equal the actual contents of the block:
the `header_lines` value 45 equals the total number of header lines, and the
`number_of_data_columns` value 22 equals both the number of names in the
`data_column_list` line and the number of per-column descriptor lines that
follow it. -/
theorem claim_C9 :
    declaredHeaderLineCount = some 45 ∧ envHeaderBlock.length = 45 ∧
    declaredColumnCount = some 22 ∧ dataColumnNames.length = 22 ∧
    descriptorLines.length = 22 := by
  refine ⟨?_, ?_, ?_, ?_, ?_⟩ <;> decide

/-- C10: evaluation of the shipped header block at the claim's failing inputs.
Every pm column (`pm1`, `pm2.5`, `pm4`, `pm10`) is declared `uint16` yet
carries the inclusive upper bound literal `65536`, one more than the largest
uint16 value 65535, and the `float` column `inttemp` declares the
non-numeral upper bound `FF.FF`; so the header block contradicts its own type
declarations and the claimed representability fails on the shipped code. -/
theorem claim_C10_code_bug :
    (["pm1", "pm2.5", "pm4", "pm10"].all (fun n =>
        fieldType (descLine n) == chars "uint16" &&
        ((rangeBounds (descLine n)).map (·.2) == some (chars "65536")))) = true ∧
    natFrom (chars "65536") = some 65536 ∧ 65535 < 65536 ∧
    fieldType (descLine "inttemp") = chars "float" ∧
    (rangeBounds (descLine "inttemp")).map (·.2) = some (chars "FF.FF") ∧
    isDecimalNumeral (chars "FF.FF") = false := by
  refine ⟨?_, ?_, ?_, ?_, ?_, ?_⟩ <;> decide

/-- C2: every StandardizedSeries produced by the merge engine has strictly
increasing timestamps — hence non-decreasing and pairwise distinct after
deduplication — the validator stage returns the samples unchanged so the
invariant persists, and the generated header reports exactly the series
length as its observation count, both after merge and after validation. -/
theorem claim_C2 (pid vid m : String) (interval mult : Nat)
    (bs : List (List CanonicalSample)) (specs : List ColumnSpec) :
    ((merge pid vid m interval mult bs).samples.map (·.ts)).Pairwise (· ≤ ·) ∧
    ((merge pid vid m interval mult bs).samples.map (·.ts)).Pairwise (· ≠ ·) ∧
    ((merge pid vid m interval mult bs).samples.map (·.ts)).Pairwise (· < ·) ∧
    (validate specs (merge pid vid m interval mult bs)).samples =
      (merge pid vid m interval mult bs).samples ∧
    (buildHeader specs (merge pid vid m interval mult bs)).observationCount =
      (merge pid vid m interval mult bs).samples.length ∧
    (buildHeader specs (validate specs (merge pid vid m interval mult bs))).observationCount =
      (validate specs (merge pid vid m interval mult bs)).samples.length := by
  have hlt : ((merge pid vid m interval mult bs).samples.map (·.ts)).Pairwise (· < ·) := by
    rw [merge_def, mergeTagged_samples, List.map_map, List.pairwise_map]
    have hs : List.Pairwise tagLe (List.insertionSort tagLe (tagBatches bs)) :=
      List.sorted_insertionSort tagLe _
    exact (dedupKeepFirst_strict (pairwise_sampLe_of_tagLe hs)).imp (fun h => h)
  exact ⟨hlt.imp (fun h => Nat.le_of_lt h), hlt.imp (fun h => Nat.ne_of_lt h), hlt,
    rfl, rfl, rfl⟩

/-- C3: the merge engine concatenates the per-file batches, sorts, and
deduplicates exact-timestamp duplicates keeping first occurrences: the output
length plus the number of duplicate-timestamp issues equals the total input
sample count (one issue per discarded duplicate), every input timestamp is
still represented in the output; and merging two files that share exactly one
identical timestamp yields exactly one sample at that timestamp — the first
file's — and exactly one duplicate-timestamp issue. -/
theorem claim_C3 :
    (∀ (pid vid m : String) (interval mult : Nat) (bs : List (List CanonicalSample)),
      (merge pid vid m interval mult bs).samples.length +
        countKind (merge pid vid m interval mult bs).issues IssueKind.duplicateTimestamp =
        (bs.map List.length).sum ∧
      (∀ t : Nat, (∃ s ∈ (merge pid vid m interval mult bs).samples, s.ts = t) ↔
        (∃ b ∈ bs, ∃ s ∈ b, s.ts = t))) ∧
    (merge "p" "v" "env" 5 2 [[sampleT0], [sampleT0]]).samples = [sampleT0] ∧
    countKind (merge "p" "v" "env" 5 2 [[sampleT0], [sampleT0]]).issues
      IssueKind.duplicateTimestamp = 1 ∧
    (merge "p" "v" "env" 5 2 [[⟨1704067200, [5]⟩], [⟨1704067200, [7]⟩]]).samples =
      [⟨1704067200, [5]⟩] ∧
    countKind (merge "p" "v" "env" 5 2 [[⟨1704067200, [5]⟩], [⟨1704067200, [7]⟩]]).issues
      IssueKind.duplicateTimestamp = 1 := by
  refine ⟨?_, by decide, by decide, by decide, by decide⟩
  intro pid vid m interval mult bs
  constructor
  · rw [merge_def, mergeTagged_samples, mergeTagged_issues, countKind_append,
      countKind_all (dedupKeepFirst_issues_kind),
      countKind_none (fun x hx => by rw [gapScan_issues_kind x hx]; intro h; cases h),
      List.length_map]
    have h1 := dedupKeepFirst_count (List.insertionSort tagLe (tagBatches bs))
    have h2 : (List.insertionSort tagLe (tagBatches bs)).length = (tagBatches bs).length :=
      (List.perm_insertionSort tagLe (tagBatches bs)).length_eq
    have h3 := tagBatchesFrom_length 0 bs
    unfold tagBatches at *
    omega
  · intro t
    rw [merge_def, mergeTagged_samples]
    constructor
    · rintro ⟨s, hs, rfl⟩
      obtain ⟨x, hx, hxs⟩ := List.mem_map.mp hs
      have hx2 : (∃ y ∈ (dedupKeepFirst (List.insertionSort tagLe (tagBatches bs))).1,
          y.sample.ts = s.ts) := ⟨x, hx, by rw [hxs]⟩
      have hx3 := (dedupKeepFirst_ts_mem _ s.ts).mp hx2
      obtain ⟨y, hy, hyt⟩ := hx3
      have hy2 : y ∈ tagBatches bs := (List.mem_insertionSort tagLe).mp hy
      exact (exists_ts_tagBatchesFrom 0 bs s.ts).mp ⟨y, hy2, hyt⟩
    · intro hex
      obtain ⟨y, hy, hyt⟩ := (exists_ts_tagBatchesFrom 0 bs t).mpr hex
      have hy2 : y ∈ List.insertionSort tagLe (tagBatches bs) :=
        (List.mem_insertionSort tagLe).mpr hy
      obtain ⟨x, hx, hxt⟩ := (dedupKeepFirst_ts_mem _ t).mpr ⟨y, hy2, hyt⟩
      exact ⟨x.sample, List.mem_map.mpr ⟨x, hx, rfl⟩, hxt⟩

/-- C7: the generated header and the rendered data rows are both driven by the
same ColumnSpec table the validator uses: the declared column count equals the
table length and every rendered row's cell count, the declared column list is
the table's name list, the cell at position `c` holds the value of column `c`;
and the environmental-sensor table generated from the shipped header block has
exactly the 22 declared columns `ts,...,inttemp` in the declared order,
matching the `data_column_list` line. -/
theorem claim_C7 :
    (∀ (specs : List ColumnSpec) (ser : StandardizedSeries) (s : CanonicalSample),
      (buildHeader specs ser).columnCount = specs.length ∧
      (buildHeader specs ser).columnList = specs.map (·.name) ∧
      (renderRow specs s).length = specs.length ∧
      (buildHeader specs ser).columnCount = (renderRow specs s).length ∧
      (∀ c, c < specs.length → (renderRow specs s).get? c = some (s.vals.getD c 0))) ∧
    envColumnSpecs.map (·.name) =
      ["ts", "lch0", "lch1", "lch2", "lch3", "lch6", "lch7", "lch8", "lch9",
       "lch10", "lch11", "pm1", "pm2.5", "pm4", "pm10", "hum", "temp", "voc",
       "nox", "screen", "ff", "inttemp"] ∧
    dataColumnNames.map (fun cs => String.mk cs) = envColumnSpecs.map (·.name) ∧
    envColumnSpecs.length = 22 := by
  refine ⟨?_, by decide, by decide, by decide⟩
  intro specs ser s
  have hlen : (renderRow specs s).length = specs.length := by
    simp [renderRow]
  refine ⟨rfl, rfl, hlen, hlen.symm, ?_⟩
  intro c hc
  simp only [renderRow, List.get?_eq_getElem?, List.getElem?_map, List.getElem?_range hc]
  rfl

/-- C8: after sorting and deduplication the merge engine records exactly one
non-monotonic-gap issue per consecutive pair whose interval exceeds the
sampling interval times the configured multiple, and the gap scan never drops
samples (the output samples do not depend on the multiple).  In the
specification's scenario with a 5-second interval, files at 00:00:00 and
00:00:05 merge to two samples with no gap issue, and adding a third file at
00:01:00 yields exactly one gap issue with all three rows retained, for any
configured multiple between 1 and 10. -/
theorem claim_C8 :
    (∀ (pid vid m : String) (interval mult : Nat) (bs : List (List CanonicalSample)),
      countKind (merge pid vid m interval mult bs).issues IssueKind.nonMonotonicGap =
        (((dedupKeepFirst (List.insertionSort tagLe (tagBatches bs))).1.zip
            (dedupKeepFirst (List.insertionSort tagLe (tagBatches bs))).1.tail).filter
          (fun p => decide (interval * mult < p.2.sample.ts - p.1.sample.ts))).length ∧
      (∀ mult' : Nat, (merge pid vid m interval mult bs).samples =
        (merge pid vid m interval mult' bs).samples)) ∧
    (∀ mult : Nat, 1 ≤ mult → mult ≤ 10 →
      (merge "p" "v" "env" 5 mult [[sampleT0], [sampleT5]]).samples.length = 2 ∧
      countKind (merge "p" "v" "env" 5 mult [[sampleT0], [sampleT5]]).issues
        IssueKind.nonMonotonicGap = 0 ∧
      (merge "p" "v" "env" 5 mult [[sampleT0], [sampleT5], [sampleT60]]).samples =
        [sampleT0, sampleT5, sampleT60] ∧
      countKind (merge "p" "v" "env" 5 mult [[sampleT0], [sampleT5], [sampleT60]]).issues
        IssueKind.nonMonotonicGap = 1) := by
  constructor
  · intro pid vid m interval mult bs
    constructor
    · rw [merge_def, mergeTagged_issues, countKind_append,
        countKind_none (fun x hx => by
          rw [dedupKeepFirst_issues_kind x hx]; intro h; cases h),
        countKind_all (gapScan_issues_kind), gapScan_length, Nat.zero_add]
    · intro mult'
      rw [merge_def, merge_def, mergeTagged_samples, mergeTagged_samples]
  · intro mult h1 h10
    have hdd2 : dedupKeepFirst (List.insertionSort tagLe (tagBatches [[sampleT0], [sampleT5]])) =
        ([⟨0, 0, sampleT0⟩, ⟨1, 0, sampleT5⟩], []) := by decide
    have hdd3 : dedupKeepFirst
        (List.insertionSort tagLe (tagBatches [[sampleT0], [sampleT5], [sampleT60]])) =
        ([⟨0, 0, sampleT0⟩, ⟨1, 0, sampleT5⟩, ⟨2, 0, sampleT60⟩], []) := by decide
    have hgap05 : ¬(5 * mult < sampleT5.ts - sampleT0.ts) := by
      have : sampleT5.ts - sampleT0.ts = 5 := by decide
      omega
    have hgap60 : 5 * mult < sampleT60.ts - sampleT5.ts := by
      have : sampleT60.ts - sampleT5.ts = 55 := by decide
      omega
    refine ⟨?_, ?_, ?_, ?_⟩
    · rw [merge_def, mergeTagged_samples, hdd2]
      rfl
    · rw [merge_def, mergeTagged_issues, hdd2]
      show countKind ([] ++ gapScan 5 mult [⟨0, 0, sampleT0⟩, ⟨1, 0, sampleT5⟩])
        IssueKind.nonMonotonicGap = 0
      rw [List.nil_append, gapScan, gapGo, if_neg hgap05, List.nil_append, gapGo]
      rfl
    · rw [merge_def, mergeTagged_samples, hdd3]
      rfl
    · rw [merge_def, mergeTagged_issues, hdd3]
      show countKind
        ([] ++ gapScan 5 mult [⟨0, 0, sampleT0⟩, ⟨1, 0, sampleT5⟩, ⟨2, 0, sampleT60⟩])
        IssueKind.nonMonotonicGap = 1
      rw [List.nil_append, gapScan, gapGo, if_neg hgap05, List.nil_append, gapGo,
        if_pos hgap60, gapGo]
      rfl

/-- C1: determinism of the conversion — whatever order the per-file samples
arrive in (any permutation of the canonical discovery-order tagging), the
merge engine produces exactly the StandardizedSeries of the canonical order;
two runs over the same input therefore produce equal series and byte-identical
serialized output files regardless of their processing orders. -/
theorem claim_C1 (pid vid m : String) (interval mult : Nat) (specs : List ColumnSpec)
    (bs : List (List CanonicalSample)) (arr1 arr2 : List TaggedSample)
    (h1 : arr1.Perm (tagBatches bs)) (h2 : arr2.Perm (tagBatches bs)) :
    mergeTagged pid vid m interval mult arr1 = merge pid vid m interval mult bs ∧
    mergeTagged pid vid m interval mult arr2 = mergeTagged pid vid m interval mult arr1 ∧
    renderFile specs (buildHeader specs (mergeTagged pid vid m interval mult arr1))
        (mergeTagged pid vid m interval mult arr1) =
      renderFile specs (buildHeader specs (mergeTagged pid vid m interval mult arr2))
        (mergeTagged pid vid m interval mult arr2) := by
  have key : ∀ arr : List TaggedSample, arr.Perm (tagBatches bs) →
      mergeTagged pid vid m interval mult arr = merge pid vid m interval mult bs := by
    intro arr h
    rw [merge_def]
    have hsort := insertionSort_eq_of_perm h (pairwise_keyNe_tagBatches bs)
    simp only [mergeTagged]
    rw [hsort]
  have e1 := key arr1 h1
  have e2 := key arr2 h2
  exact ⟨e1, by rw [e1, e2], by rw [e1, e2]⟩

/-- Witness for C1: two concrete processing orders of the same two-file input
set — the reversed tagging and the canonical one — produce the series of the
canonical discovery order. -/
theorem claim_C1_witness :
    ([⟨1, 0, sampleT5⟩, ⟨0, 0, sampleT0⟩] : List TaggedSample).Perm
      (tagBatches [[sampleT0], [sampleT5]]) ∧
    mergeTagged "p" "v" "env" 5 2 [⟨1, 0, sampleT5⟩, ⟨0, 0, sampleT0⟩] =
      merge "p" "v" "env" 5 2 [[sampleT0], [sampleT5]] :=
  ⟨by decide,
    (claim_C1 "p" "v" "env" 5 2 [] [[sampleT0], [sampleT5]]
      [⟨1, 0, sampleT5⟩, ⟨0, 0, sampleT0⟩] [⟨0, 0, sampleT0⟩, ⟨1, 0, sampleT5⟩]
      (by decide) (by decide)).1⟩

/-- C4: for a table of distinctly named columns, a sample value outside a
declared column's inclusive range produces exactly one out-of-range
ValidationIssue for that row and column — and none when the value is inside
the range — while the validator returns the series' samples untouched, never
coercing, clamping or dropping the offending sample. -/
theorem claim_C4 (specs : List ColumnSpec) (ser : StandardizedSeries)
    (i c : Nat) (spec : ColumnSpec) (lo hi v : Int) (s : CanonicalSample)
    (hnd : (specs.map (·.name)).Nodup) (hget : specs.get? c = some spec)
    (hr : spec.range = some (lo, hi)) (hs : ser.samples.get? i = some s)
    (hv : s.vals.get? c = some v) :
    countAt (checkRows specs 0 ser.samples) i spec.name IssueKind.outOfRange =
      (if v < lo ∨ hi < v then 1 else 0) ∧
    (validate specs ser).samples = ser.samples ∧
    (validate specs ser).samples.get? i = some s ∧
    (validate specs ser).issues = ser.issues ++ checkRows specs 0 ser.samples := by
  refine ⟨?_, rfl, hs, rfl⟩
  have h0 := @countAt_checkRows specs ser.samples 0 i s hs spec.name IssueKind.outOfRange
  rw [Nat.zero_add] at h0
  rw [h0]
  have hv' : s.vals.get? (0 + c) = some v := by simpa using hv
  exact countAt_checkCols specs c 0 spec lo hi v hget hr hnd hv'

/-- Witness for C4: a one-column table with range 0..10 and a sample holding
33 — the validator records exactly one out-of-range issue and keeps the
sample. -/
theorem claim_C4_witness :
    countAt
      (checkRows [⟨"v8", "integer", some (0, 10), "points"⟩] 0 [⟨1704067200, [33]⟩])
      0 "v8" IssueKind.outOfRange = (if (33 : Int) < 0 ∨ (10 : Int) < 33 then 1 else 0) ∧
    ((33 : Int) < 0 ∨ (10 : Int) < 33) ∧
    (validate [⟨"v8", "integer", some (0, 10), "points"⟩]
        ⟨"p", "v", "env", [⟨1704067200, [33]⟩], []⟩).samples = [⟨1704067200, [33]⟩] :=
  have h := claim_C4 [⟨"v8", "integer", some (0, 10), "points"⟩]
    ⟨"p", "v", "env", [⟨1704067200, [33]⟩], []⟩ 0 0
    ⟨"v8", "integer", some (0, 10), "points"⟩ 0 10 33 ⟨1704067200, [33]⟩
    (by decide) (by decide) (by decide) (by decide) (by decide)
  ⟨h.1, by decide, h.2.1⟩

/-- C5: the resolver is an exact-match roster lookup whose NotFound outcome is
non-fatal: a file whose device identifier has no roster entry is excluded from
the merge input and contributes exactly one recorded unresolved-identity issue
(one per unresolved file), while every file with a mapped identifier keeps its
batch in the merge input, so the rest of the conversion proceeds. -/
theorem claim_C5 (roster : List RosterEntry) (files : List RawFileRef)
    (pid vid m : String) (interval mult : Nat) (f : RawFileRef) :
    (∀ d : String, resolve roster d = none ↔ ∀ e ∈ roster, e.deviceId ≠ d) ∧
    (splitResolved roster files).1 =
      files.filter (fun g => (resolve roster g.deviceId).isSome) ∧
    (splitResolved roster files).2.length =
      (files.filter (fun g => (resolve roster g.deviceId).isNone)).length ∧
    (f ∈ files → resolve roster f.deviceId = none →
      mkUnresolvedIssue f ∈ (convertFiles pid vid m interval mult roster files).issues ∧
      f ∉ (splitResolved roster files).1) ∧
    (f ∈ files → (resolve roster f.deviceId).isSome →
      f.samples ∈ (splitResolved roster files).1.map (·.samples)) ∧
    convertFiles pid vid m interval mult roster files =
      { merge pid vid m interval mult
          ((files.filter (fun g => (resolve roster g.deviceId).isSome)).map (·.samples)) with
        issues := (splitResolved roster files).2 ++
          (merge pid vid m interval mult
            ((files.filter (fun g => (resolve roster g.deviceId).isSome)).map
              (·.samples))).issues } := by
  refine ⟨resolve_eq_none_iff roster, splitResolved_fst roster files,
    splitResolved_snd_length roster files, ?_, ?_, ?_⟩
  · intro hf hr
    constructor
    · simp only [convertFiles, List.mem_append]
      exact Or.inl (splitResolved_issue_mem hf hr)
    · rw [splitResolved_fst]
      intro hmem
      have := (List.mem_filter.mp hmem).2
      rw [hr] at this
      simp at this
  · intro hf hsome
    rw [splitResolved_fst]
    exact List.mem_map.mpr ⟨f, List.mem_filter.mpr ⟨hf, by simpa using hsome⟩, rfl⟩
  · simp only [convertFiles]
    rw [splitResolved_fst]

/-- Witness for C5: a roster knowing only device `dev1`; the file from `devX`
is excluded from the kept list and reported, the file from `dev1` is kept. -/
theorem claim_C5_witness :
    (⟨"b.csv", "devX", [sampleT5]⟩ : RawFileRef) ∈
      ([⟨"a.csv", "dev1", [sampleT0]⟩, ⟨"b.csv", "devX", [sampleT5]⟩] : List RawFileRef) ∧
    resolve [⟨"dev1", "1001", "v1"⟩] "devX" = none ∧
    mkUnresolvedIssue ⟨"b.csv", "devX", [sampleT5]⟩ ∈
      (convertFiles "p" "v" "env" 5 2 [⟨"dev1", "1001", "v1"⟩]
        [⟨"a.csv", "dev1", [sampleT0]⟩, ⟨"b.csv", "devX", [sampleT5]⟩]).issues ∧
    (splitResolved [⟨"dev1", "1001", "v1"⟩]
        [⟨"a.csv", "dev1", [sampleT0]⟩, ⟨"b.csv", "devX", [sampleT5]⟩]).1 =
      [⟨"a.csv", "dev1", [sampleT0]⟩] :=
  have h := claim_C5 [⟨"dev1", "1001", "v1"⟩]
    [⟨"a.csv", "dev1", [sampleT0]⟩, ⟨"b.csv", "devX", [sampleT5]⟩]
    "p" "v" "env" 5 2 ⟨"b.csv", "devX", [sampleT5]⟩
  ⟨by decide, by decide, (h.2.2.2.1 (by decide) (by decide)).1, by decide⟩

/-- C6: the writer succeeds exactly when no structural issue occurred and
every line reached the temporary file; the temporary file never survives the
call, the destination is touched only on success — where it atomically
receives exactly the rendered file — and on any failure or structural abort
the destination is left unchanged. -/
theorem claim_C6 (fs : FileState) (specs : List ColumnSpec) (hdr : HeaderBlock)
    (ser : StandardizedSeries) (dest : String) (failAt : Option Nat) :
    ((writeFile fs specs hdr ser dest failAt).2.success = true ↔
      structuralMismatch specs ser = false ∧
        appendLines failAt 0 [] (renderFile specs hdr ser) =
          some (renderFile specs hdr ser)) ∧
    ((writeFile fs specs hdr ser dest failAt).2.success = false →
      (writeFile fs specs hdr ser dest failAt).1.dest = fs.dest) ∧
    (writeFile fs specs hdr ser dest failAt).1.temp = none ∧
    ((writeFile fs specs hdr ser dest failAt).2.success = true →
      (writeFile fs specs hdr ser dest failAt).1.dest =
        some (renderFile specs hdr ser)) := by
  unfold writeFile
  by_cases hsm : structuralMismatch specs ser
  · simp only [if_pos hsm]
    exact ⟨by simp [hsm], by simp, by simp, by simp⟩
  · have hsm' : structuralMismatch specs ser = false := by simpa using hsm
    simp only [if_neg hsm]
    rcases appendLines_none_or failAt (renderFile specs hdr ser) 0 [] with ha | ha
    · simp only [ha]
      exact ⟨by simp [ha], by simp, by simp, by simp⟩
    · have ha' : appendLines failAt 0 [] (renderFile specs hdr ser) =
          some (renderFile specs hdr ser) := by simpa using ha
      simp only [ha']
      exact ⟨by simp [hsm', ha'], by simp, by simp, by simp⟩

/-- Witness for C6: an injected I/O failure at the first written line aborts
the write, leaves the prior destination content untouched and no temporary
file behind. -/
theorem claim_C6_witness :
    (writeFile ⟨some ["previous"], none⟩ [] ⟨0, 0, 0, []⟩ ⟨"p", "v", "env", [], []⟩
        "out.csv" (some 0)).1.dest = some ["previous"] ∧
    (writeFile ⟨some ["previous"], none⟩ [] ⟨0, 0, 0, []⟩ ⟨"p", "v", "env", [], []⟩
        "out.csv" (some 0)).1.temp = none ∧
    (writeFile ⟨some ["previous"], none⟩ [] ⟨0, 0, 0, []⟩ ⟨"p", "v", "env", [], []⟩
        "out.csv" (some 0)).2.success = false := by
  have h := claim_C6 ⟨some ["previous"], none⟩ [] ⟨0, 0, 0, []⟩ ⟨"p", "v", "env", [], []⟩
    "out.csv" (some 0)
  have hfail : appendLines (some 0) 0 []
      (renderFile [] ⟨0, 0, 0, []⟩ ⟨"p", "v", "env", [], []⟩) = none := rfl
  have hsucc : (writeFile ⟨some ["previous"], none⟩ [] ⟨0, 0, 0, []⟩
      ⟨"p", "v", "env", [], []⟩ "out.csv" (some 0)).2.success = false := by
    cases hb : (writeFile ⟨some ["previous"], none⟩ [] ⟨0, 0, 0, []⟩
        ⟨"p", "v", "env", [], []⟩ "out.csv" (some 0)).2.success with
    | false => rfl
    | true =>
      have h2 := (h.1.mp hb).2
      rw [hfail] at h2
      cases h2
  exact ⟨h.2.1 hsucc, h.2.2.1, hsucc⟩

/-- Witness for C2: the merged two-file series of the scenario has strictly
increasing timestamps. -/
theorem claim_C2_witness :
    ((merge "p" "v" "env" 5 2 [[sampleT0], [sampleT5]]).samples.map (·.ts)).Pairwise
      (· < ·) :=
  (claim_C2 "p" "v" "env" 5 2 [[sampleT0], [sampleT5]] envColumnSpecs).2.2.1

/-- Witness for C3: on the two-file scenario input the output length plus the
duplicate-issue count equals the total input sample count. -/
theorem claim_C3_witness :
    (merge "p" "v" "env" 5 2 [[sampleT0], [sampleT5]]).samples.length +
      countKind (merge "p" "v" "env" 5 2 [[sampleT0], [sampleT5]]).issues
        IssueKind.duplicateTimestamp =
      (([[sampleT0], [sampleT5]] : List (List CanonicalSample)).map List.length).sum :=
  (claim_C3.1 "p" "v" "env" 5 2 [[sampleT0], [sampleT5]]).1

/-- Witness for C7: the header generated from the environmental-sensor table
declares exactly as many columns as every rendered data row has cells, and the
first rendered cell of a sample is its first value. -/
theorem claim_C7_witness :
    (buildHeader envColumnSpecs ⟨"p", "v", "env", [sampleT0], []⟩).columnCount =
      (renderRow envColumnSpecs sampleT0).length ∧
    (0 < envColumnSpecs.length ∧
      (renderRow envColumnSpecs sampleT0).get? 0 = some (sampleT0.vals.getD 0 0)) :=
  have h := claim_C7.1 envColumnSpecs ⟨"p", "v", "env", [sampleT0], []⟩ sampleT0
  ⟨h.2.2.2.1, ⟨by decide, h.2.2.2.2 0 (by decide)⟩⟩

/-- Witness for C8: with the multiple configured to 2, the three-file scenario
yields exactly one non-monotonic-gap issue and keeps all three rows. -/
theorem claim_C8_witness :
    1 ≤ 2 ∧ 2 ≤ 10 ∧
    (merge "p" "v" "env" 5 2 [[sampleT0], [sampleT5], [sampleT60]]).samples =
      [sampleT0, sampleT5, sampleT60] ∧
    countKind (merge "p" "v" "env" 5 2 [[sampleT0], [sampleT5], [sampleT60]]).issues
      IssueKind.nonMonotonicGap = 1 :=
  have h := claim_C8.2 2 (by decide) (by decide)
  ⟨by decide, by decide, h.2.2.1, h.2.2.2⟩
